import Mathlib

/-!
Verification of the cloud_drive repository: a shallow embedding of the
frontend file-operation logic (hooks, dashboard handlers, utilities) and of
the spec-described storage-engine operations that the repository does not
ship (the visible source is the React frontend only).  Definitions are
translated from the TypeScript source files; definitions marked
"Modelled from the spec" embed backend behaviour that only the spec
describes.
-/

namespace CloudDrive

/-- The FileItem record from src/frontend/src/types/common.ts.  The closed
string variant file_type ('file' | 'folder') is embedded as the Boolean
isFolder; created_at timestamps are embedded as integer milliseconds (the
JS Date parsing is abstracted away). -/
structure FileItem where
  id : Nat
  name : String
  path : String
  isFolder : Bool
  size_bytes : Option Nat
  mime_type : Option String
  created_at : Int
  can_read : Bool
  can_write : Bool
  can_delete : Bool
deriving DecidableEq

/-! ### formatBytes (src/unnamed/part_004, fileUtils) -/

/-- The unit table of formatBytes. -/
def sizesTable : List String := ["B", "KB", "MB", "GB", "TB"]

/-- Round-to-nearest (ties up) of b * 10 ^ dm / 1024 ^ i: an integer-scaled
model of the JS expression parseFloat((bytes / Math.pow(k, i)).toFixed(dm)). -/
def scaledRounded (b i dm : Nat) : Nat :=
  (b * 10 ^ dm * 2 + 1024 ^ i) / (2 * 1024 ^ i)

/-- formatBytes from fileUtils: 0 or missing byte counts yield "0 B";
otherwise the value is scaled by 1024 ^ i and rendered with the unit at
index i.  This embedding takes i to be the exact floor(log_1024 bytes)
(Nat.log 1024), which is the index the code's comment-level intent
describes; the program itself computes Math.floor(Math.log bytes /
Math.log 1024) in binary64 floating point, which exceeds the exact index
and steps past the unit table for byte counts a few units below 1024 ^ 5
(the quotient evaluates to exactly 5.0 at 1024 ^ 5 - 1, - 2 and - 3), so
the two computations provably disagree there — see the boundary theorem
below. -/
def formatBytes (bytes : Option Nat) (decimals : Int) : String :=
  match bytes with
  | none => "0 B"
  | some b =>
    if b = 0 then "0 B"
    else
      let dm := decimals.toNat
      let i := Nat.log 1024 b
      toString (scaledRounded b i dm) ++ " " ++ sizesTable.getD i ""

/-! ### Mutation cache invalidation (useFileMutations.ts, useFileOperations.ts) -/

/-- React-query cache keys touched by the onSuccess handlers. -/
inductive QueryKey
  | files
  | storage
deriving DecidableEq

/-- The mutating operations wired through react-query hooks. -/
inductive MutationOp
  | createFolder
  | deleteFile
  | batchDelete
  | renameFile
  | moveFile
  | copyFile
  | upload
deriving DecidableEq

/-- The query keys invalidated on success by each mutation: translated from
the onSuccess handlers in useFileMutations.ts and, for upload, from
uploadFiles in useFileOperations.ts. -/
def invalidatedKeys : MutationOp → List QueryKey
  | .createFolder => [.files]
  | .deleteFile => [.files, .storage]
  | .batchDelete => [.files, .storage]
  | .renameFile => [.files]
  | .moveFile => [.files]
  | .copyFile => [.files, .storage]
  | .upload => [.files, .storage]

/-! ### Client-side name guards (useFileOperations.ts, state-based variant) -/

/-- A create-folder API request as issued by fileService.createFolder. -/
structure CreateFolderRequest where
  path : String
  name : String
deriving DecidableEq

/-- name.trim() falsiness: the name consists of whitespace only (JS trim
removes leading and trailing whitespace, so the trimmed string is empty
exactly when every character is whitespace). -/
def isWhitespaceOnly (name : String) : Bool :=
  name.data.all (fun c => c.isWhitespace)

/-- createFolder from useFileOperations.ts: the only client-side guard is
the falsy check on name.trim(); any other name is sent to the API. -/
def createFolderClient (currentPath name : String) : Option CreateFolderRequest :=
  if isWhitespaceOnly name then none else some ⟨currentPath, name⟩

/-- renameFile from useFileOperations.ts: guarded only by newName.trim(). -/
def renameFileClient (fileId : Nat) (newName : String) : Option (Nat × String) :=
  if isWhitespaceOnly newName then none else some (fileId, newName)

/-- Whether a name contains the path separator. -/
def nameHasSeparator (name : String) : Bool := name.data.contains '/'

/-! ### Error surfacing (useFileMutations.ts onError handlers) -/

/-- The file operations whose failures are surfaced through onError. -/
inductive FileOp
  | createFolder
  | deleteFile
  | batchDelete
  | renameFile
  | moveFile
  | copyFile
deriving DecidableEq

/-- The per-operation fallback text of each onError handler. -/
def fallbackMessage : FileOp → String
  | .createFolder => "Failed to create folder"
  | .deleteFile => "Failed to delete file"
  | .batchDelete => "Failed to delete files"
  | .renameFile => "Failed to rename file"
  | .moveFile => "Failed to move file"
  | .copyFile => "Failed to copy file"

/-- err.response?.data?.message || fallback: the server message is used
whenever it is present and truthy (a missing or empty message is falsy in
JS and falls back to the per-operation generic text). -/
def surfacedError (op : FileOp) (serverMessage : Option String) : String :=
  match serverMessage with
  | some m => if m = "" then fallbackMessage op else m
  | none => fallbackMessage op

/-! ### Metadata tree and parent-chain walking

Modelled from the spec: the backend Metadata Store, Path-walk and Operation
Engine are not part of the visible source (the repository ships only the
React frontend), so the Entry table (spec section 3) and the ancestor walk
used by the CyclicMove check (spec section 4.2) and the Size Aggregator
(spec section 4.4) are embedded from the spec's words. -/

/-- Entry kind (spec section 3: closed variant File | Folder). -/
inductive EntryKind
  | file
  | folder
deriving DecidableEq

/-- Modelled from the spec: one metadata row of the backend Metadata Store
(spec section 3): id, parent_id (none only for a root), kind, size_bytes,
sibling name. -/
structure Entry where
  id : Nat
  parent : Option Nat
  kind : EntryKind
  size_bytes : Nat
  name : String
deriving DecidableEq

/-- The per-user metadata table: a finite list of entries. -/
abbrev Store := List Entry

/-- Row lookup by entry id. -/
def lookupEntry (s : Store) (i : Nat) : Option Entry :=
  s.find? (fun e => e.id = i)

/-- The parent_id of the entry with id i, if that entry exists. -/
def parentOf (s : Store) (i : Nat) : Option Nat :=
  (lookupEntry s i).bind Entry.parent

/-- Modelled from the spec: the walk "from destination up to root" of the
CyclicMove check (spec section 4.2), fuel-bounded so that it is total even
on ill-formed stores; the list starts at i and follows parent_id links. -/
def chain (s : Store) : Nat → Nat → List Nat
  | 0, i => [i]
  | fuel + 1, i =>
    match parentOf s i with
    | some p => i :: chain s fuel p
    | none => [i]

/-- The walk from i is already complete at the given fuel. -/
def Stable (s : Store) (fuel i : Nat) : Prop :=
  chain s fuel i = chain s (fuel + 1) i

/-- A store is acyclic when every entry's parent walk terminates within
store-length steps (spec section 3: the parent chain is acyclic and
finite). -/
def AcyclicStore (s : Store) : Prop :=
  ∀ e ∈ s, chain s s.length e.id = chain s (s.length + 1) e.id

instance (s : Store) : Decidable (AcyclicStore s) :=
  inferInstanceAs (Decidable (∀ e ∈ s, _ = _))

/-- y is a parent of x in the store. -/
def parentStep (s : Store) (x y : Nat) : Prop :=
  parentOf s x = some y

/-- d is a proper descendant of a: one or more child steps below a,
equivalently the parent walk from d reaches a in one or more steps. -/
def ProperDescendant (s : Store) (d a : Nat) : Prop :=
  Relation.TransGen (parentStep s) d a

theorem chain_zero (s : Store) (i : Nat) : chain s 0 i = [i] := rfl

theorem chain_succ_of_parent (s : Store) {i p : Nat} (h : parentOf s i = some p)
    (fuel : Nat) : chain s (fuel + 1) i = i :: chain s fuel p := by
  simp [chain, h]

theorem chain_succ_of_root (s : Store) {i : Nat} (h : parentOf s i = none)
    (fuel : Nat) : chain s (fuel + 1) i = [i] := by
  simp [chain, h]

theorem chain_of_no_parent (s : Store) {i : Nat} (h : parentOf s i = none)
    (fuel : Nat) : chain s fuel i = [i] := by
  cases fuel with
  | zero => rfl
  | succ f => exact chain_succ_of_root s h f

theorem self_mem_chain (s : Store) (fuel i : Nat) : i ∈ chain s fuel i := by
  cases fuel with
  | zero => simp [chain]
  | succ f =>
    cases h : parentOf s i with
    | none => simp [chain, h]
    | some p => simp [chain, h]

theorem chain_ne_nil (s : Store) (fuel i : Nat) : chain s fuel i ≠ [] := by
  intro hnil
  exact absurd (hnil ▸ self_mem_chain s fuel i) (List.not_mem_nil i)

/-- Unfolding lemma for Stable. -/
theorem stable_iff (s : Store) (fuel i : Nat) :
    Stable s fuel i ↔ chain s fuel i = chain s (fuel + 1) i := Iff.rfl

/-- A node with a parent is never complete at fuel zero. -/
theorem not_stable_zero_of_parent {s : Store} {i p : Nat}
    (hp : parentOf s i = some p) : ¬ Stable s 0 i := by
  intro h
  rw [stable_iff, chain_zero, chain_succ_of_parent s hp, chain_zero] at h
  simp at h

/-- Once the walk is complete, adding fuel does not change it. -/
theorem stable_succ (s : Store) : ∀ fuel i, Stable s fuel i → Stable s (fuel + 1) i := by
  intro fuel
  induction fuel with
  | zero =>
    intro i h
    cases hp : parentOf s i with
    | none => rw [stable_iff, chain_succ_of_root s hp, chain_succ_of_root s hp]
    | some p => exact absurd h (not_stable_zero_of_parent hp)
  | succ f ih =>
    intro i h
    cases hp : parentOf s i with
    | none => rw [stable_iff, chain_succ_of_root s hp, chain_succ_of_root s hp]
    | some p =>
      rw [stable_iff, chain_succ_of_parent s hp, chain_succ_of_parent s hp] at h
      have hsp : Stable s f p := List.cons_injective.eq_iff.mp h
      have := ih p hsp
      rw [stable_iff, chain_succ_of_parent s hp, chain_succ_of_parent s hp]
      exact congrArg (i :: ·) this

/-- Stability of a node propagates to its parent one fuel step down. -/
theorem stable_parent (s : Store) {fuel i p : Nat} (h : Stable s (fuel + 1) i)
    (hp : parentOf s i = some p) : Stable s fuel p := by
  rw [stable_iff, chain_succ_of_parent s hp, chain_succ_of_parent s hp] at h
  exact List.cons_injective.eq_iff.mp h

/-- Every member of a complete walk has a complete walk at the same fuel. -/
theorem stable_of_mem_chain (s : Store) :
    ∀ fuel a b, b ∈ chain s fuel a → Stable s fuel a → Stable s fuel b := by
  intro fuel
  induction fuel with
  | zero =>
    intro a b hb ha
    simp [chain] at hb
    subst hb
    exact ha
  | succ f ih =>
    intro a b hb ha
    cases hp : parentOf s a with
    | none =>
      rw [chain_succ_of_root s hp] at hb
      simp at hb
      subst hb
      exact ha
    | some p =>
      rw [chain_succ_of_parent s hp] at hb
      rcases List.mem_cons.mp hb with hba | hbp
      · subst hba; exact ha
      · exact stable_succ s f b (ih p b hbp (stable_parent s ha hp))

/-- A complete walk from a member of a walk stays inside that walk. -/
theorem chain_subset_of_mem (s : Store) :
    ∀ fuel a b, b ∈ chain s fuel a → Stable s fuel a →
      ∀ c, c ∈ chain s fuel b → c ∈ chain s fuel a := by
  intro fuel
  induction fuel with
  | zero =>
    intro a b hb _ c hc
    simp [chain] at hb
    subst hb
    exact hc
  | succ f ih =>
    intro a b hb ha c hc
    cases hp : parentOf s a with
    | none =>
      rw [chain_succ_of_root s hp] at hb
      simp at hb
      subst hb
      exact hc
    | some p =>
      rw [chain_succ_of_parent s hp] at hb
      rcases List.mem_cons.mp hb with hba | hbp
      · subst hba; exact hc
      · have hsp : Stable s f p := stable_parent s ha hp
        have hsb : Stable s f b := stable_of_mem_chain s f p b hbp hsp
        rw [stable_iff] at hsb
        rw [← hsb] at hc
        rw [chain_succ_of_parent s hp]
        exact List.mem_cons_of_mem a (ih p b hbp hsp c hc)

/-- In an acyclic store every walk at store-length fuel is complete. -/
theorem stable_of_acyclic {s : Store} (hA : AcyclicStore s) (i : Nat) :
    Stable s s.length i := by
  cases hl : lookupEntry s i with
  | none =>
    have hp : parentOf s i = none := by simp [parentOf, hl]
    rw [Stable, chain_of_no_parent s hp, chain_of_no_parent s hp]
  | some e =>
    have hmem : e ∈ s := List.mem_of_find?_eq_some hl
    have hid : e.id = i := by
      have := List.find?_some hl
      simpa using this
    have := hA e hmem
    rwa [hid] at this

/-- Ancestor-walk transitivity in an acyclic store. -/
theorem chain_trans {s : Store} (hA : AcyclicStore s) {a b c : Nat}
    (hb : b ∈ chain s s.length a) (hc : c ∈ chain s s.length b) :
    c ∈ chain s s.length a :=
  chain_subset_of_mem s s.length a b hb (stable_of_acyclic hA a) c hc

/-- Everything on the walk from a is a (possibly improper) ancestor of a. -/
theorem mem_chain_imp_desc (s : Store) :
    ∀ fuel a c, c ∈ chain s fuel a → c = a ∨ ProperDescendant s a c := by
  intro fuel
  induction fuel with
  | zero =>
    intro a c hc
    simp [chain] at hc
    exact Or.inl hc
  | succ f ih =>
    intro a c hc
    cases hp : parentOf s a with
    | none =>
      rw [chain_succ_of_root s hp] at hc
      simp at hc
      exact Or.inl hc
    | some p =>
      rw [chain_succ_of_parent s hp] at hc
      rcases List.mem_cons.mp hc with hca | hcp
      · exact Or.inl hca
      · rcases ih p c hcp with hcp' | hdesc
        · subst hcp'
          exact Or.inr (Relation.TransGen.single hp)
        · exact Or.inr (Relation.TransGen.head hp hdesc)

/-- A complete walk reaches every ancestor. -/
theorem desc_imp_mem_chain (s : Store) {a c : Nat}
    (h : ProperDescendant s a c) :
    ∀ fuel, Stable s fuel a → c ∈ chain s fuel a := by
  induction h using Relation.TransGen.head_induction_on with
  | base hx =>
    intro fuel hst
    cases fuel with
    | zero => exact absurd hst (not_stable_zero_of_parent hx)
    | succ f =>
      rw [chain_succ_of_parent s hx]
      exact List.mem_cons_of_mem _ (self_mem_chain s f c)
  | ih hx htail ihc =>
    intro fuel hst
    cases fuel with
    | zero => exact absurd hst (not_stable_zero_of_parent hx)
    | succ f =>
      rw [chain_succ_of_parent s hx]
      exact List.mem_cons_of_mem _ (ihc f (stable_parent s hst hx))

/-- The walk-based cycle detection coincides with the descendant relation:
in an acyclic store, c is on the store-length walk from a exactly when
c = a or a is a proper descendant of c. -/
theorem mem_chain_iff_desc {s : Store} (hA : AcyclicStore s) (a c : Nat) :
    c ∈ chain s s.length a ↔ c = a ∨ ProperDescendant s a c := by
  constructor
  · exact mem_chain_imp_desc s s.length a c
  · intro h
    rcases h with h | h
    · subst h; exact self_mem_chain s s.length c
    · exact desc_imp_mem_chain s h s.length (stable_of_acyclic hA a)

/-! ### Move (spec section 4.2) and the client destination selector -/

/-- Error kinds of the Move operation (spec section 7). -/
inductive MoveError
  | notFound
  | notAFolder
  | nameConflict
  | cyclicMove
deriving DecidableEq

/-- Modelled from the spec: the backend Operation Engine's Move is not in
the visible source.  Spec section 4.2: Move fails NotFound if the entry or
destination is missing, CyclicMove if destinationParentId is entryId itself
or any descendant of entryId (detected by walking from the destination up
to the root, checking for entryId), NotAFolder if the destination is a
File, NameConflict if the destination already has a sibling with the
source's name; on success only parent_id of the moved entry is updated.
The cycle check is placed before the NotAFolder and NameConflict checks so
that the spec section 8 property (D = E or a descendant of E always fails
with CyclicMove) holds.  Every error path returns the input tree untouched:
the result is an error value and no store is produced. -/
def moveEntry (s : Store) (entryId destId : Nat) : Except MoveError Store :=
  match lookupEntry s entryId, lookupEntry s destId with
  | none, _ => .error .notFound
  | some _, none => .error .notFound
  | some e, some d =>
    if entryId ∈ chain s s.length destId then .error .cyclicMove
    else if d.kind ≠ .folder then .error .notAFolder
    else if s.any (fun c => c.parent == some destId && c.name == e.name && c.id != e.id) then
      .error .nameConflict
    else .ok (s.map (fun c => if c.id = entryId then { c with parent := some destId } else c))

/-- JS String.startsWith embedded as a character-data prefix test. -/
def strStartsWith (s pre : String) : Bool := pre.data.isPrefixOf s.data

/-- handleConfirm from FileSelectorModal.tsx: onSelect (and hence the move
or copy request) fires unless excludePath is truthy (present and non-empty)
and targetPath starts with it as a plain string prefix.  targetPath is the
selected folder path, or the current path when nothing is selected. -/
def handleConfirmIssues (targetPath : String) (excludePath : Option String) : Bool :=
  match excludePath with
  | some q => if q = "" then true else !(strStartsWith targetPath q)
  | none => true

/-- The isExcluded flag computed for each folder row in
FileSelectorModal.tsx: excludePath && (folder.path === excludePath ||
folder.path.startsWith(excludePath + '/')). -/
def isExcluded (folderPath : String) (excludePath : Option String) : Bool :=
  match excludePath with
  | some q => if q = "" then false else (folderPath == q || strStartsWith folderPath (q ++ "/"))
  | none => false

/-- The spec-side notion used by the claim: p equals q or lies strictly
under q (q followed by a path separator). -/
def pathIsSelfOrUnder (p q : String) : Bool :=
  p == q || strStartsWith p (q ++ "/")

/-! ### Size aggregation (spec section 4.4) -/

/-- The aggregate result shape, matching CalculateSizeResponse of the
frontend types. -/
structure AggregateResult where
  totalBytes : Nat
  fileCount : Nat
  folderCount : Nat
deriving DecidableEq

/-- An entry is covered by a selection when some selected id lies on its
parent walk (the selected id is the entry itself or one of its
ancestors). -/
def coveredBy (s : Store) (ids : List Nat) (e : Entry) : Bool :=
  ids.any (fun i => (chain s s.length e.id).contains i)

/-- Modelled from the spec: the backend Size Aggregator is not in the
visible source.  Spec section 4.4: files add size_bytes and fileCount,
folders add folderCount (the folder itself included) and recursively cover
their descendants; overlapping selections are de-duplicated by entry id
across the whole traversal, embedded here by gathering the covered rows
from the (id-distinct) store once. -/
def aggregate (s : Store) (ids : List Nat) : AggregateResult :=
  let cov := s.filter (coveredBy s ids)
  { totalBytes := (cov.filter (fun e => e.kind == .file)).foldr (fun e acc => e.size_bytes + acc) 0
  , fileCount := (cov.filter (fun e => e.kind == .file)).length
  , folderCount := (cov.filter (fun e => e.kind == .folder)).length }

/-! ### batchDownloadFiles (useFileOperations.ts) -/

/-- The two download endpoints of fileService. -/
inductive DownloadEndpoint
  | direct (fileId : Nat)
  | batch (fileIds : List Nat)
deriving DecidableEq

/-- JS String.endsWith embedded as a suffix test on the character data. -/
def strEndsWith (s suf : String) : Bool := suf.data.isSuffixOf s.data

/-- Endpoint selection of batchDownloadFiles: an empty selection issues no
request; a single id whose entry (looked up in the current listing, default
file type when absent) is not a folder goes to /api/files/download; a
folder or more than one id goes to /api/files/batch-download. -/
def batchDownloadEndpoint (files : List FileItem) (fileIds : List Nat) :
    Option DownloadEndpoint :=
  match fileIds with
  | [] => none
  | first :: _ =>
    let isSingle := fileIds.length == 1
    let fType : Bool :=
      if isSingle then
        match files.find? (fun f => f.id == first) with
        | some f => f.isFolder
        | none => false
      else false
    if isSingle && !fType then some (.direct first) else some (.batch fileIds)

/-- The filename under which batchDownloadFiles saves the blob: the result
of the content-disposition header parse (embedded as an optional
server-supplied name) or the locally computed default, with ".zip" appended
in the batch/folder case when missing. -/
def batchDownloadSavedName (files : List FileItem) (fileIds : List Nat)
    (contentDispositionName : Option String) : String :=
  let isSingle := fileIds.length == 1
  let first := fileIds.headD 0
  let found := files.find? (fun f => f.id == first)
  let fType : Bool :=
    if isSingle then
      match found with
      | some f => f.isFolder
      | none => false
    else false
  let baseName :=
    if isSingle then
      match found with
      | some f => f.name
      | none => "download"
    else "batch_download_" ++ toString fileIds.length ++ "_files.zip"
  let candidate :=
    match contentDispositionName with
    | some n => n
    | none => baseName
  if (!isSingle || fType) && !(strEndsWith candidate ".zip") then candidate ++ ".zip"
  else candidate

/-! ### Dashboard delete flow (the Dashboard revision in src/unnamed/part_001) -/

/-- The dashboard state the delete flow reads and writes: the pending modal
item, the modal visibility flag, the selected file ids, and the ids for
which a delete request (fileService.deleteFile) has been issued so far. -/
structure DashState where
  itemToDelete : Option FileItem
  showDeleteModal : Bool
  selection : List Nat
  issuedDeletes : List Nat
deriving DecidableEq

/-- User-interface events of the delete flow in the part_001 Dashboard.
setSelection covers every selection change (handleSelect toggles,
handleSelectAll, clearSelection); rowDelete is handleDelete from a file row
or context menu; toolbarDelete is the ActionToolbar onDelete, which opens
the modal with no item and no permission check when the selection is
non-empty; confirmDelete is the modal confirmation, parametrised by whether
the server call succeeds; closeDeleteModal is the cancel path. -/
inductive DashEvent
  | setSelection (ids : List Nat)
  | rowDelete (f : FileItem)
  | toolbarDelete
  | confirmDelete (success : Bool)
  | closeDeleteModal
deriving DecidableEq

/-- The initial dashboard state: no modal, empty selection, nothing
issued. -/
def initDashState : DashState := ⟨none, false, [], []⟩

/-- One step of the part_001 Dashboard delete flow.  handleDelete refuses
when can_delete is false; when the clicked file is part of a multi-item
selection it calls openDeleteModal() with no argument (pending item
cleared), otherwise openDeleteModal(file).  The toolbar onDelete calls
openDeleteModal() directly, with no can_delete check.  confirmDelete
issues fileService.deleteFile for the pending item when there is one
(closing the modal and deselecting it on success), and otherwise falls
through to batchDeleteFiles over every selected id — with no can_delete
check — clearing the selection on success. -/
def dashStep (st : DashState) : DashEvent → DashState
  | .setSelection ids => { st with selection := ids }
  | .rowDelete f =>
    if f.can_delete then
      if f.id ∈ st.selection ∧ 1 < st.selection.length then
        { st with itemToDelete := none, showDeleteModal := true }
      else
        { st with itemToDelete := some f, showDeleteModal := true }
    else st
  | .toolbarDelete =>
    if st.selection.isEmpty then st
    else { st with itemToDelete := none, showDeleteModal := true }
  | .confirmDelete ok =>
    if st.showDeleteModal then
      match st.itemToDelete with
      | some f =>
        if ok then
          { itemToDelete := none
            showDeleteModal := false
            selection := st.selection.filter (fun i => i ≠ f.id)
            issuedDeletes := st.issuedDeletes ++ [f.id] }
        else { st with issuedDeletes := st.issuedDeletes ++ [f.id] }
      | none =>
        if st.selection.isEmpty then st
        else if ok then
          { itemToDelete := none
            showDeleteModal := false
            selection := []
            issuedDeletes := st.issuedDeletes ++ st.selection }
        else { st with issuedDeletes := st.issuedDeletes ++ st.selection }
    else st
  | .closeDeleteModal => { st with itemToDelete := none, showDeleteModal := false }

/-- Run a sequence of user events from the initial state. -/
def runDash (evs : List DashEvent) : DashState :=
  evs.foldl dashStep initDashState

/-! ### Breadcrumbs (Breadcrumbs.tsx) -/

/-- One breadcrumb: display name and navigation path. -/
structure Crumb where
  name : String
  path : String
deriving DecidableEq

/-- The accumulation loop of getBreadcrumbs: each part extends the
accumulated path by '/' + part. -/
def crumbsAux (acc : String) : List String → List Crumb
  | [] => []
  | part :: rest =>
    Crumb.mk part (acc ++ "/" ++ part) :: crumbsAux (acc ++ "/" ++ part) rest

/-- Split a character list on '/' (the semantics of JS split('/'): empty
segments at the ends and between repeated separators are kept). -/
def splitSlashAux : List Char → List Char → List (List Char)
  | [], acc => [acc.reverse]
  | c :: rest, acc =>
    if c = '/' then acc.reverse :: splitSlashAux rest []
    else splitSlashAux rest (c :: acc)

/-- currentPath.split('/').filter(p => p): the non-empty segments. -/
def pathParts (p : String) : List String :=
  ((splitSlashAux p.data []).map String.mk).filter (fun x => x != "")

/-- getBreadcrumbs from Breadcrumbs.tsx. -/
def getBreadcrumbs (currentPath : String) : List Crumb :=
  if currentPath = "/" then [⟨"My Files", "/"⟩]
  else ⟨"My Files", "/"⟩ :: crumbsAux "" (pathParts currentPath)

/-- Recompose segments into a path string. -/
def joinParts : List String → String
  | [] => ""
  | part :: rest => "/" ++ part ++ joinParts rest

/-- The normalized form of a logical path in the spec's sense: collapse
repeated separators and strip the trailing slash, keeping "/" for the
root. -/
def normalizePath (p : String) : String :=
  if (pathParts p).isEmpty then "/" else joinParts (pathParts p)

/-! ### File filtering and sorting (useFileFilter.ts) -/

/-- The sort options of the dashboard. -/
inductive SortOption
  | name
  | size
  | date
deriving DecidableEq

/-- The category options of the dashboard sidebar. -/
inductive CategoryOption
  | all
  | recent
  | images
  | videos
  | documents
deriving DecidableEq

/-- JS String.includes embedded as an infix test on the character data. -/
def strIncludes (s sub : String) : Bool := decide (sub.data <:+: s.data)

/-- The category predicate of processedFiles: folders always pass; files
pass by recency (ceil of the absolute age in days at most 7) or by their
mime type; a file without a mime type fails every non-recent category.
The all category applies no filter. -/
def keepByCategory (now : Int) (cat : CategoryOption) (f : FileItem) : Bool :=
  if f.isFolder then true
  else
    match cat with
    | .all => true
    | .recent =>
      decide ((((now - f.created_at).natAbs + 86400000 - 1) / 86400000) ≤ 7)
    | .images =>
      match f.mime_type with
      | some m => strStartsWith m "image/"
      | none => false
    | .videos =>
      match f.mime_type with
      | some m => strStartsWith m "video/"
      | none => false
    | .documents =>
      match f.mime_type with
      | some m =>
        strIncludes m "pdf" || strIncludes m "document" || strIncludes m "text" ||
          strIncludes m "msword" || strIncludes m "sheet" || strIncludes m "presentation"
      | none => false

/-- Code-point comparison of character lists: the embedding of
localeCompare (locale collation modelled as code-point order). -/
def cmpCharList : List Char → List Char → Int
  | [], [] => 0
  | [], _ :: _ => -1
  | _ :: _, [] => 1
  | a :: as, b :: bs =>
    if a.toNat < b.toNat then -1 else if b.toNat < a.toNat then 1 else cmpCharList as bs

/-- a.name.localeCompare(b.name), embedded as code-point comparison. -/
def localeCompareInt (a b : String) : Int := cmpCharList a.data b.data

/-- The same-kind branch of the comparator: name ascending, size
descending (missing sizes as 0), or created_at descending. -/
def cmpKey (sb : SortOption) (a b : FileItem) : Int :=
  match sb with
  | .name => localeCompareInt a.name b.name
  | .size => (b.size_bytes.getD 0 : Int) - (a.size_bytes.getD 0 : Int)
  | .date => b.created_at - a.created_at

/-- The sort comparator of processedFiles: folders strictly before files
(the kind-mismatch branch of the source comparator); entries of the same
kind by the selected key. -/
def cmpFiles (sb : SortOption) (a b : FileItem) : Int :=
  if a.isFolder = b.isFolder then cmpKey sb a b
  else (if a.isFolder then -1 else 1)

/-- processedFiles from useFileFilter.ts: category filter (skipped for
all), search filter (skipped for the empty query, otherwise case-folded
substring match on the name), then sort by the comparator (Array.sort
embedded as mergeSort on the comparator's nonpositive half). -/
def processedFiles (now : Int) (cat : CategoryOption) (searchQuery : String)
    (sb : SortOption) (files : List FileItem) : List FileItem :=
  let r1 := if cat = .all then files else files.filter (keepByCategory now cat)
  let r2 :=
    if searchQuery = "" then r1
    else r1.filter (fun f => strIncludes f.name.toLower searchQuery.toLower)
  r2.mergeSort (fun a b => cmpFiles sb a b ≤ 0)

/-- The per-key order that the claim states for entries of the same kind. -/
def keyLe (sb : SortOption) (a b : FileItem) : Prop :=
  match sb with
  | .name => localeCompareInt a.name b.name ≤ 0
  | .size => (b.size_bytes.getD 0 : Int) ≤ (a.size_bytes.getD 0 : Int)
  | .date => b.created_at ≤ a.created_at

/-! ## Claim theorems -/

/-- C3 counterexample: the name "a/b" contains a path separator, yet both
createFolder and renameFile issue the API request for it — the only client
guard is the whitespace trim, refuting the claim that separator-containing
names produce no API request. -/
theorem c3_counterexample :
    nameHasSeparator "a/b" = true ∧
      (createFolderClient "/" "a/b").isSome = true ∧
      (renameFileClient 1 "a/b").isSome = true := by
  decide

/-- C3 (amended): createFolder and renameFile skip the API request exactly
for empty or whitespace-only names; any other name, separator-containing or
over-long included, is sent to the server. -/
theorem c3_trim_is_only_guard (p n : String) (i : Nat) (m : String) :
    (createFolderClient p n = none ↔ isWhitespaceOnly n = true) ∧
    (renameFileClient i m = none ↔ isWhitespaceOnly m = true) := by
  constructor
  · simp only [createFolderClient]
    split <;> simp_all
  · simp only [renameFileClient]
    split <;> simp_all

/-- C5: exactly the size-changing mutations refresh the storage counter:
the storage query key is invalidated precisely by delete (single and
batch), copy, and upload, while create-folder, rename, and move leave it
untouched. -/
theorem c5_storage_invalidation (op : MutationOp) :
    QueryKey.storage ∈ invalidatedKeys op ↔
      (op = .deleteFile ∨ op = .batchDelete ∨ op = .copyFile ∨ op = .upload) := by
  cases op <;> decide

/-- C8: for every failing file operation whose server response carries a
non-empty message, the surfaced error text is exactly that server message —
the error-kind distinction made by the server remains visible. -/
theorem c8_server_message_surfaced (op : FileOp) (m : String) (hm : m ≠ "") :
    surfacedError op (some m) = m := by
  simp [surfacedError, hm]

/-- C8 witness: a concrete server message passes through unchanged. -/
theorem c8_server_message_surfaced_witness :
    surfacedError .createFolder (some "name already exists") = "name already exists" :=
  c8_server_message_surfaced .createFolder "name already exists" (by decide)

/-- C10 (code bug): at the failing inputs 1024 ^ 5 - 1, - 2 and - 3 — all
below 1024 ^ 5 — the exact index floor(log_1024 bytes) said by the claim
is 4, whose table entry is "TB", and the exact-index rendering stays on
that unit; the index 5 that the program's double-precision
Math.floor(Math.log bytes / Math.log 1024) actually produces at these
inputs has no entry in the five-element unit table (sizes[5] is
undefined), so the program's returned string carries no valid unit
there. -/
theorem c10_float_index_gap :
    Nat.log 1024 (1024 ^ 5 - 1) = 4 ∧
    Nat.log 1024 (1024 ^ 5 - 2) = 4 ∧
    Nat.log 1024 (1024 ^ 5 - 3) = 4 ∧
    sizesTable[(4 : Nat)]? = some "TB" ∧
    sizesTable[(5 : Nat)]? = none ∧
    formatBytes (some (1024 ^ 5 - 1)) 1 =
      toString (scaledRounded (1024 ^ 5 - 1) 4 1) ++ " " ++ "TB" := by
  have h1 : Nat.log 1024 (1024 ^ 5 - 1) = 4 :=
    Nat.log_eq_of_pow_le_of_lt_pow (by norm_num) (by norm_num)
  have h2 : Nat.log 1024 (1024 ^ 5 - 2) = 4 :=
    Nat.log_eq_of_pow_le_of_lt_pow (by norm_num) (by norm_num)
  have h3 : Nat.log 1024 (1024 ^ 5 - 3) = 4 :=
    Nat.log_eq_of_pow_le_of_lt_pow (by norm_num) (by norm_num)
  refine ⟨h1, h2, h3, rfl, rfl, ?_⟩
  have hne : (1024 ^ 5 - 1 : Nat) ≠ 0 := by norm_num
  have hlit : (1024 ^ 5 - 1 : Nat) = 1125899906842623 := by norm_num
  have h1' : Nat.log 1024 1125899906842623 = 4 := hlit ▸ h1
  simp [formatBytes, hne, h1', hlit, sizesTable]

/-- C1 counterexample: with excluded path "/a", the chosen destination
"/ab" is neither "/a" itself nor a path under "/a", yet handleConfirm does
not issue the move request — the raw startsWith guard also blocks sibling
paths that merely extend the excluded folder's name. -/
theorem c1_counterexample :
    pathIsSelfOrUnder "/ab" "/a" = false ∧
      handleConfirmIssues "/ab" (some "/a") = false := by
  decide

/-- C1 (amended): Move fails with CyclicMove exactly when the destination
is the moved entry itself or one of its proper descendants, and on that
failure no tree is produced (the caller's tree is untouched); the client's
destination selector issues the request exactly when the chosen path does
not start with the excluded path as a raw string prefix (blocking also
sibling paths that merely extend the excluded name), while the folder-row
exclusion marks exactly the folders whose path is the excluded path or
lies strictly under it. -/
theorem c1_move_cyclic (s : Store) (entryId destId : Nat) (e d : Entry)
    (p q fp : String)
    (hA : AcyclicStore s)
    (he : lookupEntry s entryId = some e)
    (hd : lookupEntry s destId = some d)
    (hq : q ≠ "") :
    (moveEntry s entryId destId = .error .cyclicMove ↔
      (destId = entryId ∨ ProperDescendant s destId entryId)) ∧
    (handleConfirmIssues p (some q) = false ↔ strStartsWith p q = true) ∧
    (isExcluded fp (some q) = true ↔ pathIsSelfOrUnder fp q = true) := by
  have hiff := mem_chain_iff_desc hA destId entryId
  refine ⟨?_, ?_, ?_⟩
  · simp only [moveEntry, he, hd]
    split
    · rename_i hmem
      constructor
      · intro _
        rcases hiff.mp hmem with h | h
        · exact Or.inl h.symm
        · exact Or.inr h
      · intro _
        rfl
    · rename_i hmem
      constructor
      · intro hcontra
        split at hcontra
        · simp at hcontra
        · split at hcontra <;> simp at hcontra
      · intro hdesc
        exfalso
        apply hmem
        rcases hdesc with h | h
        · exact hiff.mpr (Or.inl h.symm)
        · exact hiff.mpr (Or.inr h)
  · simp [handleConfirmIssues, hq]
  · simp [isExcluded, pathIsSelfOrUnder, hq]

/-- C1 witness: a two-node store (a folder and its subfolder): moving the
root folder into its own child is reported cyclic, and the concrete client
paths behave as stated. -/
theorem c1_move_cyclic_witness :
    (moveEntry [⟨0, none, .folder, 0, "root"⟩, ⟨1, some 0, .folder, 0, "docs"⟩] 0 1 =
        .error .cyclicMove ↔
      (1 = 0 ∨ ProperDescendant [⟨0, none, .folder, 0, "root"⟩, ⟨1, some 0, .folder, 0, "docs"⟩] 1 0)) ∧
    (handleConfirmIssues "/ab" (some "/a") = false ↔ strStartsWith "/ab" "/a" = true) ∧
    (isExcluded "/a/x" (some "/a") = true ↔ pathIsSelfOrUnder "/a/x" "/a" = true) :=
  c1_move_cyclic _ 0 1 ⟨0, none, .folder, 0, "root"⟩ ⟨1, some 0, .folder, 0, "docs"⟩
    "/ab" "/a" "/a/x" (by decide) rfl rfl (by decide)

/-- C2: overlapping selections are de-duplicated by entry id across the
whole traversal: adding to the selection an id y that is already covered by
a selected id x (x lies on y's parent walk) leaves totalBytes, fileCount
and folderCount unchanged, so each concrete File is counted exactly once no
matter how many selected ancestors cover it. -/
theorem c2_aggregate_dedup (s : Store) (ids : List Nat) (x y : Nat)
    (hA : AcyclicStore s) (hx : x ∈ ids) (hy : x ∈ chain s s.length y) :
    aggregate s (y :: ids) = aggregate s ids := by
  have hcov : ∀ e ∈ s, coveredBy s (y :: ids) e = coveredBy s ids e := by
    intro e _
    unfold coveredBy
    simp only [List.any_cons]
    cases hc : (chain s s.length e.id).contains y with
    | false => simp
    | true =>
      have hyc : y ∈ chain s s.length e.id := by simpa using hc
      have hxc : x ∈ chain s s.length e.id := chain_trans hA hyc hy
      have hany : ids.any (fun i => (chain s s.length e.id).contains i) = true :=
        List.any_eq_true.mpr ⟨x, hx, by simpa using hxc⟩
      rw [hany]
      simp
  have hfilter : s.filter (coveredBy s (y :: ids)) = s.filter (coveredBy s ids) :=
    List.filter_congr hcov
  unfold aggregate
  rw [hfilter]

/-- C2 witness: selecting a folder together with a file inside it counts
the file once: the aggregate equals that of the folder alone. -/
theorem c2_aggregate_dedup_witness :
    aggregate [⟨0, none, .folder, 0, "r"⟩, ⟨1, some 0, .folder, 0, "docs"⟩,
        ⟨2, some 1, .file, 100, "a"⟩] [2, 1] =
      aggregate [⟨0, none, .folder, 0, "r"⟩, ⟨1, some 0, .folder, 0, "docs"⟩,
        ⟨2, some 1, .file, 100, "a"⟩] [1] :=
  c2_aggregate_dedup _ [1] 1 2 (by decide) (by decide) (by decide)

/-- A string extended by ".zip" ends in ".zip". -/
theorem strEndsWith_append_zip (s : String) : strEndsWith (s ++ ".zip") ".zip" = true := by
  simp [strEndsWith]

/-- After the fallback-extension step, the name ends in ".zip". -/
theorem zip_fixup_ends (c : String) :
    strEndsWith (if !(strEndsWith c ".zip") then c ++ ".zip" else c) ".zip" = true := by
  cases hc : strEndsWith c ".zip" with
  | true => simp [hc]
  | false => simpa [hc] using strEndsWith_append_zip c

/-- C4: for a non-empty selection, a single id resolving to a non-folder
file is downloaded through the direct endpoint; a single folder or a
multi-item selection goes through the batch ZIP endpoint, and in that case
the filename used for saving ends in ".zip" whatever name the server's
content-disposition header supplies. -/
theorem c4_download_endpoint (files : List FileItem) (fileIds : List Nat)
    (cd : Option String) :
    (∀ i f, fileIds = [i] → files.find? (fun g => g.id == i) = some f →
      f.isFolder = false → batchDownloadEndpoint files fileIds = some (.direct i)) ∧
    (∀ i f, fileIds = [i] → files.find? (fun g => g.id == i) = some f →
      f.isFolder = true →
        batchDownloadEndpoint files fileIds = some (.batch fileIds) ∧
        strEndsWith (batchDownloadSavedName files fileIds cd) ".zip" = true) ∧
    (2 ≤ fileIds.length →
      batchDownloadEndpoint files fileIds = some (.batch fileIds) ∧
      strEndsWith (batchDownloadSavedName files fileIds cd) ".zip" = true) := by
  refine ⟨?_, ?_, ?_⟩
  · intro i f hids hfind hnf
    subst hids
    simp [batchDownloadEndpoint, hfind, hnf]
  · intro i f hids hfind hf
    subst hids
    constructor
    · simp [batchDownloadEndpoint, hfind, hf]
    · unfold batchDownloadSavedName
      simp only [List.length_cons, List.length_nil, List.headD]
      simp only [hfind, hf]
      cases cd with
      | none => simpa using zip_fixup_ends f.name
      | some n => simpa using zip_fixup_ends n
  · intro hlen
    have hne : fileIds.length ≠ 1 := by omega
    have hbeq : (fileIds.length == 1) = false := by
      simpa using hne
    cases fileIds with
    | nil => simp at hlen
    | cons first rest =>
      constructor
      · simp only [batchDownloadEndpoint]
        rw [hbeq]
        simp
      · unfold batchDownloadSavedName
        rw [hbeq]
        simp only [Bool.false_eq_true, if_false, Bool.not_false, Bool.false_or]
        cases cd with
        | none => simpa using zip_fixup_ends ("batch_download_" ++ toString (first :: rest).length ++ "_files.zip")
        | some n => simpa using zip_fixup_ends n

/-- C4 witness: one folder id goes to the batch endpoint with a ".zip"
name; the hypotheses are discharged on a concrete one-folder listing. -/
theorem c4_download_endpoint_witness :
    batchDownloadEndpoint [⟨5, "docs", "/docs", true, none, none, 0, true, true, true⟩] [5] =
        some (.batch [5]) ∧
      strEndsWith
        (batchDownloadSavedName [⟨5, "docs", "/docs", true, none, none, 0, true, true, true⟩]
          [5] (some "docs")) ".zip" = true :=
  (c4_download_endpoint [⟨5, "docs", "/docs", true, none, none, 0, true, true, true⟩]
      [5] (some "docs")).2.1 5
    ⟨5, "docs", "/docs", true, none, none, 0, true, true, true⟩ rfl rfl rfl

/-- Every event of the delete flow preserves the pending-item invariant:
any file sitting in the delete modal passed the can_delete check. -/
theorem dashStep_item_checked (st : DashState) (ev : DashEvent)
    (h : ∀ f, st.itemToDelete = some f → f.can_delete = true) :
    ∀ f, (dashStep st ev).itemToDelete = some f → f.can_delete = true := by
  intro f hf
  cases ev with
  | setSelection ids => exact h f hf
  | rowDelete g =>
    by_cases hg : g.can_delete = true
    · by_cases hmulti : g.id ∈ st.selection ∧ 1 < st.selection.length
      · have hnone : (dashStep st (.rowDelete g)).itemToDelete = none := by
          simp [dashStep, hg, hmulti]
        rw [hnone] at hf
        cases hf
      · have hsome : (dashStep st (.rowDelete g)).itemToDelete = some g := by
          simp [dashStep, hg, hmulti]
        rw [hsome] at hf
        injection hf with hf
        subst hf
        exact hg
    · have hid : dashStep st (.rowDelete g) = st := by
        simp [dashStep, hg]
      rw [hid] at hf
      exact h f hf
  | toolbarDelete =>
    by_cases hsel : st.selection.isEmpty = true
    · have hid : dashStep st .toolbarDelete = st := by
        simp [dashStep, hsel]
      rw [hid] at hf
      exact h f hf
    · have hnone : (dashStep st .toolbarDelete).itemToDelete = none := by
        simp [dashStep, hsel]
      rw [hnone] at hf
      cases hf
  | confirmDelete ok =>
    by_cases hm : st.showDeleteModal = true
    · cases hit : st.itemToDelete with
      | some g =>
        cases ok with
        | true =>
          have hnone : (dashStep st (.confirmDelete true)).itemToDelete = none := by
            simp [dashStep, hm, hit]
          rw [hnone] at hf
          cases hf
        | false =>
          have hkeep : (dashStep st (.confirmDelete false)).itemToDelete = st.itemToDelete := by
            simp [dashStep, hm, hit]
          rw [hkeep] at hf
          exact h f hf
      | none =>
        by_cases hsel : st.selection.isEmpty = true
        · have hid : dashStep st (.confirmDelete ok) = st := by
            simp [dashStep, hm, hit, hsel]
          rw [hid] at hf
          exact h f hf
        · cases ok with
          | true =>
            have hnone : (dashStep st (.confirmDelete true)).itemToDelete = none := by
              simp [dashStep, hm, hit, hsel]
            rw [hnone] at hf
            cases hf
          | false =>
            have hkeep : (dashStep st (.confirmDelete false)).itemToDelete
                = st.itemToDelete := by
              simp [dashStep, hm, hit, hsel]
            rw [hkeep] at hf
            exact h f hf
    · have hid : dashStep st (.confirmDelete ok) = st := by
        simp [dashStep, hm]
      rw [hid] at hf
      exact h f hf
  | closeDeleteModal =>
    have hnone : (dashStep st .closeDeleteModal).itemToDelete = none := by
      simp [dashStep]
    rw [hnone] at hf
    cases hf

/-- The pending-item invariant holds along every event sequence. -/
theorem runDash_item_checked (evs : List DashEvent) :
    ∀ f, (runDash evs).itemToDelete = some f → f.can_delete = true := by
  have hgen : ∀ (l : List DashEvent) (st : DashState),
      (∀ f, st.itemToDelete = some f → f.can_delete = true) →
      ∀ f, (l.foldl dashStep st).itemToDelete = some f → f.can_delete = true := by
    intro l
    induction l with
    | nil => intro st h; exact h
    | cons ev rest ih =>
      intro st h
      exact ih (dashStep st ev) (dashStep_item_checked st ev h)
  refine hgen evs initDashState ?_
  intro f hf
  cases hf

/-- C6 counterexample: the listing entry with id 1 has can_delete = false,
yet selecting it and using the toolbar delete (which opens the modal with
no pending item and no permission check) followed by confirming issues a
delete request for id 1 — refuting the claim that a delete request is
never issued for an entry whose can_delete flag is false. -/
theorem c6_counterexample :
    ((⟨1, "a.txt", "/a.txt", false, some 3, none, 0, true, true, false⟩ : FileItem).id = 1 ∧
      (⟨1, "a.txt", "/a.txt", false, some 3, none, 0, true, true, false⟩ : FileItem).can_delete
        = false) ∧
    (1 : Nat) ∈
      (runDash [.setSelection [1], .toolbarDelete, .confirmDelete true]).issuedDeletes := by
  decide

/-- C6 (amended): the can_delete check guards only the single-item path:
along every event sequence the pending modal item always has can_delete
set (so the single confirm only ever issues a checked item), while the
batch confirmation path — reached from the toolbar delete or from deleting
one of several selected rows, where the modal opens with no pending item —
issues a delete request for every selected id without any can_delete
check. -/
theorem c6_delete_flow (evs : List DashEvent) (f : FileItem) (st : DashState) (ok : Bool)
    (hf : (runDash evs).itemToDelete = some f)
    (hm : st.showDeleteModal = true)
    (hi : st.itemToDelete = none)
    (hs : st.selection.isEmpty = false) :
    f.can_delete = true ∧
    (dashStep st (.confirmDelete ok)).issuedDeletes = st.issuedDeletes ++ st.selection := by
  refine ⟨runDash_item_checked evs f hf, ?_⟩
  cases ok <;> simp [dashStep, hm, hi, hs]

/-- C6 witness: a deletable file clicked alone sits in the modal, and a
batch confirmation over the selection issues exactly the selected ids. -/
theorem c6_delete_flow_witness :
    (⟨2, "b.txt", "/b.txt", false, some 1, none, 0, true, true, true⟩ : FileItem).can_delete
        = true ∧
      (dashStep ⟨none, true, [7, 8], []⟩ (.confirmDelete true)).issuedDeletes
        = [] ++ [7, 8] :=
  c6_delete_flow
    [.rowDelete ⟨2, "b.txt", "/b.txt", false, some 1, none, 0, true, true, true⟩]
    ⟨2, "b.txt", "/b.txt", false, some 1, none, 0, true, true, true⟩
    ⟨none, true, [7, 8], []⟩ true (by decide) rfl rfl rfl

/-- C7 counterexample: the path "/a/.." decomposes into breadcrumbs that
keep the ".." segment as an ordinary crumb — dot segments are not
rejected by the client-side decomposition. -/
theorem c7_counterexample :
    (getBreadcrumbs "/a/..").map Crumb.name = ["My Files", "a", ".."] ∧
      Crumb.mk ".." "/a/.." ∈ getBreadcrumbs "/a/.." := by
  decide

/-- The last accumulated path of the breadcrumb loop is the accumulator
followed by the joined remaining segments. -/
theorem crumbsAux_last_path :
    ∀ (rest : List String) (part acc : String),
      ((crumbsAux acc (part :: rest)).getLast?).map Crumb.path =
        some (acc ++ joinParts (part :: rest)) := by
  intro rest
  induction rest with
  | nil =>
    intro part acc
    simp [crumbsAux, joinParts, String.append_assoc]
  | cons part2 rest2 ih =>
    intro part acc
    have h1 : crumbsAux acc (part :: part2 :: rest2) =
        Crumb.mk part (acc ++ "/" ++ part) ::
          crumbsAux (acc ++ "/" ++ part) (part2 :: rest2) := rfl
    have h2 : crumbsAux (acc ++ "/" ++ part) (part2 :: rest2) =
        Crumb.mk part2 (acc ++ "/" ++ part ++ "/" ++ part2) ::
          crumbsAux (acc ++ "/" ++ part ++ "/" ++ part2) rest2 := rfl
    rw [h1, h2, List.getLast?_cons_cons, ← h2, ih]
    have h3 : joinParts (part :: part2 :: rest2) =
        "/" ++ part ++ joinParts (part2 :: rest2) := rfl
    rw [h3]
    congr 1
    simp [String.append_assoc]

/-- C7 (amended): for every input path, the client decomposition collapses
repeated separators and strips the trailing slash (keeping the root): the
first breadcrumb is always the root "/" and the last breadcrumb's path is
the normalized input; "." and ".." segments are kept as ordinary segments,
not rejected. -/
theorem c7_breadcrumbs_normalized (p : String) :
    (getBreadcrumbs p).head? = some ⟨"My Files", "/"⟩ ∧
    ((getBreadcrumbs p).getLast?).map Crumb.path = some (normalizePath p) := by
  unfold getBreadcrumbs
  split
  · rename_i hp
    subst hp
    constructor
    · rfl
    · decide
  · constructor
    · rfl
    · cases hparts : pathParts p with
      | nil =>
        simp [crumbsAux, normalizePath, hparts]
      | cons a rest =>
        have hlast := crumbsAux_last_path rest a ""
        have hcons : (Crumb.mk "My Files" "/" :: crumbsAux "" (a :: rest)).getLast? =
            (crumbsAux "" (a :: rest)).getLast? := by
          rw [show crumbsAux "" (a :: rest) =
              Crumb.mk a ("" ++ "/" ++ a) :: crumbsAux ("" ++ "/" ++ a) rest from rfl]
          exact List.getLast?_cons_cons
        rw [hcons, hlast]
        simp [normalizePath, hparts]

/-- Swapping the arguments of the code-point comparison negates it. -/
theorem cmpCharList_swap : ∀ (x y : List Char), cmpCharList y x = -cmpCharList x y := by
  intro x
  induction x with
  | nil =>
    intro y
    cases y <;> simp [cmpCharList]
  | cons a as ih =>
    intro y
    cases y with
    | nil => simp [cmpCharList]
    | cons b bs =>
      simp only [cmpCharList]
      rcases Nat.lt_trichotomy a.toNat b.toNat with h | h | h
      · rw [if_neg (by omega), if_pos h, if_pos h]
        decide
      · rw [if_neg (by omega), if_neg (by omega), if_neg (by omega), if_neg (by omega)]
        exact ih bs
      · rw [if_pos h, if_neg (by omega), if_pos h]

/-- The code-point comparison is transitive on its nonpositive half. -/
theorem cmpCharList_trans : ∀ (x y z : List Char),
    cmpCharList x y ≤ 0 → cmpCharList y z ≤ 0 → cmpCharList x z ≤ 0 := by
  intro x
  induction x with
  | nil =>
    intro y z _ _
    cases z <;> simp [cmpCharList]
  | cons a as ih =>
    intro y z h1 h2
    cases y with
    | nil => simp [cmpCharList] at h1
    | cons b bs =>
      cases z with
      | nil => simp [cmpCharList] at h2
      | cons c cs =>
        simp only [cmpCharList] at h1 h2 ⊢
        by_cases hab : a.toNat < b.toNat
        · rw [if_pos hab] at h1
          by_cases hbc : b.toNat < c.toNat
          · rw [if_pos (by omega : a.toNat < c.toNat)]
            decide
          · rw [if_neg hbc] at h2
            by_cases hcb : c.toNat < b.toNat
            · rw [if_pos hcb] at h2
              omega
            · rw [if_pos (by omega : a.toNat < c.toNat)]
              decide
        · rw [if_neg hab] at h1
          by_cases hba : b.toNat < a.toNat
          · rw [if_pos hba] at h1
            omega
          · rw [if_neg hba] at h1
            by_cases hbc : b.toNat < c.toNat
            · rw [if_pos (by omega : a.toNat < c.toNat)]
              decide
            · rw [if_neg hbc] at h2
              by_cases hcb : c.toNat < b.toNat
              · rw [if_pos hcb] at h2
                omega
              · rw [if_neg hcb] at h2
                rw [if_neg (by omega : ¬a.toNat < c.toNat), if_neg (by omega : ¬c.toNat < a.toNat)]
                exact ih bs cs h1 h2

/-- Swapping the arguments of the same-kind key comparison negates it. -/
theorem cmpKey_swap (sb : SortOption) (a b : FileItem) :
    cmpKey sb b a = -cmpKey sb a b := by
  cases sb with
  | name =>
    simp only [cmpKey, localeCompareInt]
    exact cmpCharList_swap _ _
  | size =>
    simp only [cmpKey]
    omega
  | date =>
    simp only [cmpKey]
    omega

/-- The same-kind key comparison is transitive on its nonpositive half. -/
theorem cmpKey_trans (sb : SortOption) (a b c : FileItem)
    (h1 : cmpKey sb a b ≤ 0) (h2 : cmpKey sb b c ≤ 0) : cmpKey sb a c ≤ 0 := by
  cases sb with
  | name =>
    simp only [cmpKey, localeCompareInt] at h1 h2 ⊢
    exact cmpCharList_trans _ _ _ h1 h2
  | size =>
    simp only [cmpKey] at h1 h2 ⊢
    omega
  | date =>
    simp only [cmpKey] at h1 h2 ⊢
    omega

/-- Characterization of the comparator's nonpositive half: same kind and
key order, or folder before file. -/
theorem cmpFiles_le_iff (sb : SortOption) (a b : FileItem) :
    cmpFiles sb a b ≤ 0 ↔
      (a.isFolder = b.isFolder ∧ cmpKey sb a b ≤ 0) ∨
        (a.isFolder = true ∧ b.isFolder = false) := by
  unfold cmpFiles
  by_cases hk : a.isFolder = b.isFolder
  · rw [if_pos hk]
    constructor
    · intro h
      exact Or.inl ⟨hk, h⟩
    · intro h
      rcases h with ⟨_, h⟩ | ⟨ht, hf⟩
      · exact h
      · rw [ht, hf] at hk
        cases hk
  · rw [if_neg hk]
    cases ha : a.isFolder with
    | true =>
      have hb : b.isFolder = false := by
        cases hbv : b.isFolder with
        | false => rfl
        | true => exact absurd (ha.trans hbv.symm) hk
      simp [ha, hb]
    | false =>
      have hb : b.isFolder = true := by
        cases hbv : b.isFolder with
        | true => rfl
        | false => exact absurd (ha.trans hbv.symm) hk
      simp [ha, hb]

/-- The comparator is total on its nonpositive half. -/
theorem cmpFiles_total (sb : SortOption) (a b : FileItem) :
    cmpFiles sb a b ≤ 0 ∨ cmpFiles sb b a ≤ 0 := by
  by_cases hk : a.isFolder = b.isFolder
  · have hsw := cmpKey_swap sb a b
    rcases le_or_lt (cmpKey sb a b) 0 with h | h
    · exact Or.inl ((cmpFiles_le_iff sb a b).mpr (Or.inl ⟨hk, h⟩))
    · exact Or.inr ((cmpFiles_le_iff sb b a).mpr (Or.inl ⟨hk.symm, by omega⟩))
  · cases ha : a.isFolder with
    | true =>
      have hb : b.isFolder = false := by
        cases hbv : b.isFolder with
        | false => rfl
        | true => exact absurd (ha.trans hbv.symm) hk
      exact Or.inl ((cmpFiles_le_iff sb a b).mpr (Or.inr ⟨ha, hb⟩))
    | false =>
      have hb : b.isFolder = true := by
        cases hbv : b.isFolder with
        | true => rfl
        | false => exact absurd (ha.trans hbv.symm) hk
      exact Or.inr ((cmpFiles_le_iff sb b a).mpr (Or.inr ⟨hb, ha⟩))

/-- The comparator is transitive on its nonpositive half. -/
theorem cmpFiles_trans (sb : SortOption) (a b c : FileItem)
    (h1 : cmpFiles sb a b ≤ 0) (h2 : cmpFiles sb b c ≤ 0) :
    cmpFiles sb a c ≤ 0 := by
  rcases (cmpFiles_le_iff sb a b).mp h1 with ⟨hk1, k1⟩ | ⟨ht1, hf1⟩ <;>
    rcases (cmpFiles_le_iff sb b c).mp h2 with ⟨hk2, k2⟩ | ⟨ht2, hf2⟩
  · exact (cmpFiles_le_iff sb a c).mpr (Or.inl ⟨hk1.trans hk2, cmpKey_trans sb a b c k1 k2⟩)
  · exact (cmpFiles_le_iff sb a c).mpr (Or.inr ⟨hk1.trans ht2, hf2⟩)
  · exact (cmpFiles_le_iff sb a c).mpr (Or.inr ⟨ht1, hk2.symm.trans hf1⟩)
  · exact absurd (hf1.symm.trans ht2) (by simp)

/-- The claim-side key order follows from the comparator's key branch. -/
theorem keyLe_of_cmpKey (sb : SortOption) (a b : FileItem)
    (h : cmpKey sb a b ≤ 0) : keyLe sb a b := by
  cases sb with
  | name => exact h
  | size =>
    simp only [cmpKey] at h
    simp only [keyLe]
    omega
  | date =>
    simp only [cmpKey] at h
    simp only [keyLe]
    omega

/-- C9: for every listing, category, query and sort option, the processed
list places every folder before every file and orders entries of the same
kind by the selected key; the category filter keeps every folder. -/
theorem c9_processed_order (now : Int) (cat : CategoryOption) (q : String)
    (sb : SortOption) (files : List FileItem) (f : FileItem)
    (hf : f.isFolder = true) :
    (processedFiles now cat q sb files).Pairwise
        (fun a b => (b.isFolder = true → a.isFolder = true) ∧
          (a.isFolder = b.isFolder → keyLe sb a b)) ∧
      keepByCategory now cat f = true := by
  constructor
  · have htrans : ∀ x y z : FileItem,
        decide (cmpFiles sb x y ≤ 0) = true → decide (cmpFiles sb y z ≤ 0) = true →
        decide (cmpFiles sb x z ≤ 0) = true := fun x y z hxy hyz =>
      decide_eq_true (cmpFiles_trans sb x y z (of_decide_eq_true hxy) (of_decide_eq_true hyz))
    have htotal : ∀ x y : FileItem,
        (decide (cmpFiles sb x y ≤ 0) || decide (cmpFiles sb y x ≤ 0)) = true := by
      intro x y
      rcases cmpFiles_total sb x y with h | h <;> simp [h]
    simp only [processedFiles]
    refine List.Pairwise.imp ?_
      (@List.sorted_mergeSort FileItem (fun a b => decide (cmpFiles sb a b ≤ 0))
        htrans htotal _)
    intro a b hab
    have hab' : cmpFiles sb a b ≤ 0 := of_decide_eq_true hab
    rcases (cmpFiles_le_iff sb a b).mp hab' with ⟨hk, k⟩ | ⟨ht, hbf⟩
    · exact ⟨fun hbf => hk.trans hbf, fun _ => keyLe_of_cmpKey sb a b k⟩
    · refine ⟨fun _ => ht, fun hkk => ?_⟩
      exact absurd (ht.symm.trans (hkk.trans hbf)) (by simp)
  · simp [keepByCategory, hf]

/-- C9 witness: a concrete folder passes the category filter and the
processed list of a two-item listing is correctly ordered. -/
theorem c9_processed_order_witness :
    (processedFiles 0 .images "" .name
        [⟨1, "a.txt", "/a.txt", false, some 3, none, 0, true, true, true⟩,
          ⟨2, "b", "/b", true, none, none, 0, true, true, true⟩]).Pairwise
        (fun a b => (b.isFolder = true → a.isFolder = true) ∧
          (a.isFolder = b.isFolder → keyLe .name a b)) ∧
      keepByCategory 0 .images ⟨2, "b", "/b", true, none, none, 0, true, true, true⟩ = true :=
  c9_processed_order 0 .images "" .name
    [⟨1, "a.txt", "/a.txt", false, some 3, none, 0, true, true, true⟩,
      ⟨2, "b", "/b", true, none, none, 0, true, true, true⟩]
    ⟨2, "b", "/b", true, none, none, 0, true, true, true⟩ rfl

end CloudDrive
